import Mathlib

/-!
Verification of the screenshot-capture / visual-regression tool.

Shallow embedding of the core logic:
* `src/core/comparator.ts` — `ScreenshotComparator.compareScreenshots` (pixel diff);
* `src/core/analyzer.ts`   — `VisualAnalyzer.calculateTextSimilarity` /
  `levenshteinDistance` (the DP matrix is embedded row by row, exactly the
  recurrence the matrix code fills in);
* `src/core/capturer.ts`   — the capture state (screenshot list, key-frame index
  set, previous-analysis pointer) with `takeScreenshot` /
  `captureErrorScreenshot` split into their initiation-time reads (array
  length and timestamp) and completion-time appends, so that overlapping
  captures are representable, plus `identifyKeyFrames`, `detectIssues` and
  the manifest fields;
* `src/core/detector.ts`   — the loading strategies in a discrete-time
  semantics: each member strategy is abstracted by the pair
  (result it eventually resolves with, elapsed ms at which it resolves), and
  `Promise.all` resolves at the maximum of the member times;
* `src/core/browser.ts`    — `BrowserController.close` / `screenshot` and the
  try/catch cleanup discipline of `captureSequence`.

JavaScript strings are modelled as `List Char`; JS `Array.prototype.sort()` on
strings (ascending UTF-16 lexicographic, a total order) is modelled by
`List.insertionSort (· ≤ ·)`: any comparison sort produces the unique sorted
permutation, so the choice of sorting algorithm is irrelevant to the result.
JS numbers that hold pixel bytes, counts and milliseconds are `ℕ`; the
percentage arithmetic (which JS does in floating point) is modelled in `ℚ` —
all claims about it are equalities between expressions that JS computes by the
same sequence of operations, so exact arithmetic is faithful.
-/

namespace ScreenshotTester

/-! ### Pixel comparator (`src/core/comparator.ts`) -/

/-- A decoded PNG: `PNG.sync.read` output. `data i` is the `i`-th byte of the
RGBA buffer; the code reads bytes `(width * y + x) << 2` through `+3`. -/
structure PNGImage where
  width : ℕ
  height : ℕ
  data : ℕ → ℕ

/-- The `ComparisonResult` record of `comparator.ts`. -/
structure ComparisonResult where
  isMatch : Bool
  diffPercentage : ℚ
  diffPixels : ℕ
  totalPixels : ℕ
  deriving DecidableEq

/-- JS `Math.abs(a - b)` on two byte values. -/
def channelDiff (a b : ℕ) : ℕ := ((a : ℤ) - (b : ℤ)).natAbs

/-- JS `Math.max(rDiff, gDiff, bDiff, aDiff)` for the pixel at `(x, y)`:
the maximum of the four per-channel absolute differences. -/
def pixelDiff (baseline current : PNGImage) (y x : ℕ) : ℕ :=
  let idx := (baseline.width * y + x) * 4
  max (max (max (channelDiff (baseline.data idx) (current.data idx))
                (channelDiff (baseline.data (idx + 1)) (current.data (idx + 1))))
           (channelDiff (baseline.data (idx + 2)) (current.data (idx + 2))))
      (channelDiff (baseline.data (idx + 3)) (current.data (idx + 3)))

/-- The double loop of `compareScreenshots`: for `y` in `[0, height)`, `x` in
`[0, width)`, count the pixels whose `pixelDiff` strictly exceeds the
per-pixel threshold (`if (pixelDiff > this.pixelThreshold) diffPixels++`). -/
def countDiffPixels (baseline current : PNGImage) (pixelThreshold : ℕ) : ℕ :=
  ((List.range baseline.height).map (fun y =>
    (List.range baseline.width).countP (fun x =>
      decide (pixelThreshold < pixelDiff baseline current y x)))).sum

/-- Embeds `ScreenshotComparator.compareScreenshots`, after both images are decoded.
`threshold` is the aggregate percentage threshold (constructor default 0.1),
`pixelThreshold` the per-pixel one (constructor default 10). -/
def compareScreenshots (threshold : ℚ) (pixelThreshold : ℕ)
    (baseline current : PNGImage) : ComparisonResult :=
  if baseline.width ≠ current.width ∨ baseline.height ≠ current.height then
    { isMatch := false
      diffPercentage := 100
      diffPixels := baseline.width * baseline.height
      totalPixels := baseline.width * baseline.height }
  else
    let totalPixels := baseline.width * baseline.height
    let diffPixels := countDiffPixels baseline current pixelThreshold
    let diffPercentage : ℚ := (diffPixels : ℚ) / (totalPixels : ℚ) * 100
    { isMatch := decide (diffPercentage ≤ threshold)
      diffPercentage := diffPercentage
      diffPixels := diffPixels
      totalPixels := totalPixels }

/-- Constructor default for the aggregate threshold (`options.threshold || 0.1`). -/
def thresholdDefault : ℚ := 1 / 10

/-- Constructor default for the per-pixel threshold (`options.pixelThreshold || 10`). -/
def pixelThresholdDefault : ℕ := 10

/-! ### Text similarity (`src/core/analyzer.ts`) -/

/-- One row step of the Levenshtein DP matrix of `levenshteinDistance`:
given row `i` (`prev`, distances for the length-`i` prefix of `str2`),
produce row `i+1`.  Cell `(i+1, j+1)` compares `str2.charAt(i)` with
`str1.charAt(j)` and otherwise takes
`Math.min(m[i][j] + 1, m[i+1][j] + 1, m[i][j+1] + 1)`. -/
def levRow (str1 str2 : List Char) (i : ℕ) (prev : ℕ → ℕ) : ℕ → ℕ
  | 0 => i + 1
  | j + 1 =>
    if str2.get? i = str1.get? j then prev j
    else min (min (prev j + 1) (levRow str1 str2 i prev j + 1)) (prev (j + 1) + 1)

/-- Cell `(i, j)` of the DP matrix: the edit distance between the length-`i`
prefix of `str2` and the length-`j` prefix of `str1`.  Row 0 is
`matrix[0][j] = j`; row `i+1` is produced from row `i` by `levRow`. -/
def levCell (str1 str2 : List Char) : ℕ → ℕ → ℕ
  | 0 => fun j => j
  | i + 1 => levRow str1 str2 i (levCell str1 str2 i)

/-- Embeds `VisualAnalyzer.levenshteinDistance`: the bottom-right cell
`matrix[str2.length][str1.length]`. -/
def levenshteinDistance (str1 str2 : List Char) : ℕ :=
  levCell str1 str2 str2.length str1.length

/-- Embeds `VisualAnalyzer.calculateTextSimilarity` (result in `[0, 100]`, exact). -/
def calculateTextSimilarity (text1 text2 : List Char) : ℚ :=
  if text1 = text2 then 100
  else if text1 = [] ∨ text2 = [] then 0
  else
    let longer := if text2.length < text1.length then text1 else text2
    let shorter := if text2.length < text1.length then text2 else text1
    if longer.length = 0 then 100
    else ((longer.length : ℚ) - (levenshteinDistance longer shorter : ℚ))
           / (longer.length : ℚ) * 100

/-! ### DP-matrix equations and symmetry of the edit distance -/

theorem levCell_zero (s1 s2 : List Char) (j : ℕ) : levCell s1 s2 0 j = j := rfl

theorem levCell_row_zero (s1 s2 : List Char) (i : ℕ) : levCell s1 s2 i 0 = i := by
  cases i <;> rfl

theorem levCell_succ_succ (s1 s2 : List Char) (i j : ℕ) :
    levCell s1 s2 (i + 1) (j + 1) =
      if s2.get? i = s1.get? j then levCell s1 s2 i j
      else min (min (levCell s1 s2 i j + 1) (levCell s1 s2 (i + 1) j + 1))
               (levCell s1 s2 i (j + 1) + 1) := rfl

theorem levCell_symm (s1 s2 : List Char) (i j : ℕ) :
    levCell s1 s2 i j = levCell s2 s1 j i := by
  have H : ∀ n i j, i + j ≤ n → levCell s1 s2 i j = levCell s2 s1 j i := by
    intro n
    induction n with
    | zero =>
      intro i j h
      have hi : i = 0 := by omega
      have hj : j = 0 := by omega
      subst hi; subst hj; rfl
    | succ n ih =>
      intro i j h
      cases i with
      | zero => rw [levCell_zero, levCell_row_zero]
      | succ i =>
        cases j with
        | zero => rw [levCell_row_zero, levCell_zero]
        | succ j =>
          rw [levCell_succ_succ, levCell_succ_succ]
          have hA := ih i j (by omega)
          have hB := ih (i + 1) j (by omega)
          have hC := ih i (j + 1) (by omega)
          by_cases hc : s2.get? i = s1.get? j
          · rw [if_pos hc, if_pos hc.symm, hA]
          · rw [if_neg hc, if_neg (fun hh => hc hh.symm), hA, hB, hC]
            omega
  exact H (i + j) i j le_rfl

theorem levenshteinDistance_symm (a b : List Char) :
    levenshteinDistance a b = levenshteinDistance b a := by
  unfold levenshteinDistance
  exact levCell_symm a b b.length a.length

/-- Claim C9: the analyzer's text similarity is symmetric, gives 100 on equal
strings, and gives 0 when exactly one of the strings is empty. -/
theorem analyzer_text_similarity (A B : List Char) :
    calculateTextSimilarity A B = calculateTextSimilarity B A ∧
    calculateTextSimilarity A A = 100 ∧
    ((A = [] ∧ B ≠ []) ∨ (A ≠ [] ∧ B = []) → calculateTextSimilarity A B = 0) :=
  by
  refine ⟨?_, ?_, ?_⟩
  · by_cases heq : A = B
    · subst heq; rfl
    · by_cases hE : A = [] ∨ B = []
      · unfold calculateTextSimilarity
        rw [if_neg heq, if_neg (fun hh : B = A => heq hh.symm), if_pos hE,
          if_pos (Or.symm hE)]
      · unfold calculateTextSimilarity
        rw [if_neg heq, if_neg (fun hh : B = A => heq hh.symm), if_neg hE,
          if_neg (fun hh : B = [] ∨ A = [] => hE (Or.symm hh))]
        rcases Nat.lt_trichotomy B.length A.length with hl | hl | hl
        · have h2 : ¬A.length < B.length := by omega
          simp only [if_pos hl, if_neg h2]
        · have h1 : ¬B.length < A.length := by omega
          have h2 : ¬A.length < B.length := by omega
          simp only [if_neg h1, if_neg h2]
          simp only [hl, levenshteinDistance_symm B A]
        · have h1 : ¬B.length < A.length := by omega
          simp only [if_neg h1, if_pos hl]
  · unfold calculateTextSimilarity
    rw [if_pos rfl]
  · intro hone
    unfold calculateTextSimilarity
    rcases hone with ⟨hA, hB⟩ | ⟨hA, hB⟩
    · rw [if_neg (by subst hA; exact fun hh => hB hh.symm), if_pos (Or.inl hA)]
    · rw [if_neg (by subst hB; exact hA), if_pos (Or.inr hB)]

/-- Witness for C9 at concrete strings. -/
theorem analyzer_text_similarity_witness :
    calculateTextSimilarity ['a', 'b'] ['c'] = calculateTextSimilarity ['c'] ['a', 'b'] ∧
    calculateTextSimilarity ['a'] ['a'] = 100 ∧
    calculateTextSimilarity [] ['a'] = 0 :=
  ⟨(analyzer_text_similarity ['a', 'b'] ['c']).1,
   (analyzer_text_similarity ['a'] ['a']).2.1,
   (analyzer_text_similarity [] ['a']).2.2 (Or.inl ⟨rfl, by decide⟩)⟩

/-! ### Comparator theorems -/

/-- Claim C6: a dimension mismatch short-circuits: no-match, 100% diff,
`diffPixels` = baseline pixel count, independent of thresholds and of the
pixel data (no per-pixel comparison happens). -/
theorem comparator_dimension_mismatch (threshold : ℚ) (pixelThreshold : ℕ)
    (w h w' h' : ℕ) (d d' : ℕ → ℕ) (hne : w ≠ w' ∨ h ≠ h') :
    compareScreenshots threshold pixelThreshold ⟨w, h, d⟩ ⟨w', h', d'⟩ =
      { isMatch := false
        diffPercentage := 100
        diffPixels := w * h
        totalPixels := w * h } := by
  unfold compareScreenshots
  rw [if_pos hne]

/-- Witness for C6: 2×2 baseline vs 3×2 current. -/
theorem comparator_dimension_mismatch_witness :
    compareScreenshots thresholdDefault pixelThresholdDefault
        ⟨2, 2, fun _ => 7⟩ ⟨3, 2, fun _ => 7⟩ =
      { isMatch := false
        diffPercentage := 100
        diffPixels := 4
        totalPixels := 4 } :=
  comparator_dimension_mismatch thresholdDefault pixelThresholdDefault
    2 2 3 2 (fun _ => 7) (fun _ => 7) (by decide)

theorem list_map_range_sum (h : ℕ) (g : ℕ → ℕ) :
    ((List.range h).map g).sum = ∑ y ∈ Finset.range h, g y := by
  induction h with
  | zero => simp
  | succ k ih => simp [List.range_succ, Finset.sum_range_succ, ih]

theorem countP_range_eq_sum (n : ℕ) (p : ℕ → Bool) :
    (List.range n).countP p = ∑ x ∈ Finset.range n, if p x then 1 else 0 := by
  induction n with
  | zero => rfl
  | succ k ih =>
    rw [List.range_succ, List.countP_append, ih, Finset.sum_range_succ]
    simp [List.countP_cons]

theorem countDiffPixels_eq_card (b c : PNGImage) (pt : ℕ) :
    countDiffPixels b c pt =
      ((Finset.range b.height ×ˢ Finset.range b.width).filter
        (fun q => pt < pixelDiff b c q.1 q.2)).card := by
  unfold countDiffPixels
  rw [Finset.card_filter, Finset.sum_product, list_map_range_sum]
  refine Finset.sum_congr rfl (fun y _ => ?_)
  rw [countP_range_eq_sum]
  refine Finset.sum_congr rfl (fun x _ => ?_)
  simp

/-- Claim C7: for equal-sized images a pixel is counted as different exactly
when the maximum of the four per-channel absolute differences strictly
exceeds the per-pixel threshold; if every pixel stays at or below the
threshold, no pixel is counted and the diff percentage is 0. -/
theorem comparator_per_pixel_threshold (threshold : ℚ) (pt : ℕ)
    (b c : PNGImage) (hw : b.width = c.width) (hh : b.height = c.height) :
    (compareScreenshots threshold pt b c).diffPixels =
      ((Finset.range b.height ×ˢ Finset.range b.width).filter
        (fun q => pt < pixelDiff b c q.1 q.2)).card ∧
    ((∀ y < b.height, ∀ x < b.width, pixelDiff b c y x ≤ pt) →
      (compareScreenshots threshold pt b c).diffPixels = 0 ∧
      (compareScreenshots threshold pt b c).diffPercentage = 0) := by
  have hcond : ¬(b.width ≠ c.width ∨ b.height ≠ c.height) := by
    push_neg; exact ⟨hw, hh⟩
  have hdp : (compareScreenshots threshold pt b c).diffPixels =
      countDiffPixels b c pt := by
    unfold compareScreenshots
    rw [if_neg hcond]
  have hzero : (∀ y < b.height, ∀ x < b.width, pixelDiff b c y x ≤ pt) →
      countDiffPixels b c pt = 0 := by
    intro hall
    unfold countDiffPixels
    have : ∀ y ∈ List.range b.height,
        (List.range b.width).countP
          (fun x => decide (pt < pixelDiff b c y x)) = 0 := by
      intro y hy
      rw [List.countP_eq_zero]
      intro x hx
      simp only [decide_eq_true_eq, not_lt]
      exact hall y (List.mem_range.mp hy) x (List.mem_range.mp hx)
    rw [List.sum_eq_zero]
    intro z hz
    rcases List.mem_map.mp hz with ⟨y, hy, hyz⟩
    rw [← hyz]
    exact this y hy
  refine ⟨by rw [hdp, countDiffPixels_eq_card], fun hall => ⟨by rw [hdp]; exact hzero hall, ?_⟩⟩
  have h0 : countDiffPixels b c pt = 0 := hzero hall
  unfold compareScreenshots
  rw [if_neg hcond]
  simp [h0]

/-- Witness for C7: 1×1 images whose only pixel differs by 5 per channel,
threshold 10 — the pixel is not counted and the diff percentage is 0. -/
theorem comparator_per_pixel_threshold_witness :
    (compareScreenshots thresholdDefault 10
        ⟨1, 1, fun _ => 100⟩ ⟨1, 1, fun _ => 105⟩).diffPixels = 0 ∧
    (compareScreenshots thresholdDefault 10
        ⟨1, 1, fun _ => 100⟩ ⟨1, 1, fun _ => 105⟩).diffPercentage = 0 :=
  (comparator_per_pixel_threshold thresholdDefault 10
      ⟨1, 1, fun _ => 100⟩ ⟨1, 1, fun _ => 105⟩ rfl rfl).2 (by decide)

/-! ### Screenshot filenames (`capturer.ts`)

`takeScreenshot` derives the filename
`${String(index).padStart(3, '0')}-${timestamp}ms.png`, and
`captureErrorScreenshot` uses `...ms-ERROR.png`. -/

/-- Decimal digits of `n`, most significant first, by repeated division;
`fuel ≥ n` suffices.  This is the JS `String(n)` rendering of a natural. -/
def toDecimalAux : ℕ → ℕ → List Char
  | 0, _ => []
  | fuel + 1, n =>
    if n = 0 then []
    else toDecimalAux fuel (n / 10) ++ [Nat.digitChar (n % 10)]

/-- JS `String(n)` for a natural number (JS renders `0` as `"0"`). -/
def natChars (n : ℕ) : List Char :=
  if n = 0 then ['0'] else toDecimalAux n n

/-- JS `String(index).padStart(3, '0')`. -/
def pad3 (n : ℕ) : List Char :=
  List.replicate (3 - (natChars n).length) '0' ++ natChars n

/-- The filename written for the screenshot at `index` taken `timestamp` ms
into the session; `isError` selects the `captureErrorScreenshot` variant. -/
def mkFilename (index timestamp : ℕ) (isError : Bool) : List Char :=
  pad3 index ++ ['-'] ++ natChars timestamp ++
    (if isError then "ms-ERROR.png".toList else "ms.png".toList)

/-- Reads a decimal digit string back to its value (used only in proofs, to
recover the index from a filename). -/
def parseNat (s : List Char) : ℕ :=
  s.foldl (fun a c => 10 * a + (c.toNat - 48)) 0

theorem parseNat_append_singleton (xs : List Char) (c : Char) :
    parseNat (xs ++ [c]) = 10 * parseNat xs + (c.toNat - 48) := by
  simp [parseNat, List.foldl_append]

theorem digitChar_toNat : ∀ d, d < 10 → (Nat.digitChar d).toNat = 48 + d := by
  decide

theorem digitChar_ne_dash : ∀ d, d < 10 → Nat.digitChar d ≠ '-' := by
  decide

theorem parseNat_toDecimalAux :
    ∀ fuel n, n ≤ fuel → parseNat (toDecimalAux fuel n) = n := by
  intro fuel
  induction fuel with
  | zero =>
    intro n hn
    have : n = 0 := by omega
    subst this; rfl
  | succ fuel ih =>
    intro n hn
    by_cases h0 : n = 0
    · subst h0; rfl
    · have hdiv : n / 10 ≤ fuel := by
        have := Nat.div_lt_self (Nat.pos_of_ne_zero h0) (by omega : 1 < 10)
        omega
      unfold toDecimalAux
      rw [if_neg h0, parseNat_append_singleton, ih (n / 10) hdiv,
        digitChar_toNat (n % 10) (Nat.mod_lt n (by omega))]
      omega

theorem parseNat_natChars (n : ℕ) : parseNat (natChars n) = n := by
  unfold natChars
  by_cases h0 : n = 0
  · subst h0; rfl
  · rw [if_neg h0]
    exact parseNat_toDecimalAux n n le_rfl

theorem parseNat_replicate_zero (k : ℕ) (s : List Char) :
    parseNat (List.replicate k '0' ++ s) = parseNat s := by
  induction k with
  | zero => simp
  | succ m ih =>
    rw [List.replicate_succ, List.cons_append]
    show parseNat (List.replicate m '0' ++ s) = parseNat s
    exact ih

theorem parseNat_pad3 (n : ℕ) : parseNat (pad3 n) = n := by
  unfold pad3
  rw [parseNat_replicate_zero, parseNat_natChars]

theorem toDecimalAux_ne_dash :
    ∀ fuel n, ∀ c ∈ toDecimalAux fuel n, c ≠ '-' := by
  intro fuel
  induction fuel with
  | zero => intro n c hc; simp [toDecimalAux] at hc
  | succ fuel ih =>
    intro n c hc
    unfold toDecimalAux at hc
    by_cases h0 : n = 0
    · rw [if_pos h0] at hc; simp at hc
    · rw [if_neg h0] at hc
      rcases List.mem_append.mp hc with h | h
      · exact ih (n / 10) c h
      · rw [List.mem_singleton.mp h]
        exact digitChar_ne_dash (n % 10) (Nat.mod_lt n (by omega))

theorem natChars_ne_dash (n : ℕ) : ∀ c ∈ natChars n, c ≠ '-' := by
  intro c hc
  unfold natChars at hc
  by_cases h0 : n = 0
  · rw [if_pos h0] at hc
    rw [List.mem_singleton.mp hc]; decide
  · rw [if_neg h0] at hc
    exact toDecimalAux_ne_dash n n c hc

theorem pad3_ne_dash (n : ℕ) : ∀ c ∈ pad3 n, c ≠ '-' := by
  intro c hc
  rcases List.mem_append.mp hc with h | h
  · rw [List.eq_of_mem_replicate h]; decide
  · exact natChars_ne_dash n c h

theorem takeWhile_append_dash (xs rest : List Char) (h : ∀ c ∈ xs, c ≠ '-') :
    (xs ++ '-' :: rest).takeWhile (fun c => c != '-') = xs := by
  induction xs with
  | nil => simp [List.takeWhile_cons]
  | cons a as ih =>
    rw [List.cons_append, List.takeWhile_cons]
    have ha : (a != '-') = true := by
      simpa using h a (List.mem_cons_self a as)
    rw [if_pos ha, ih (fun c hc => h c (List.mem_cons_of_mem a hc))]

/-- Recovers the index encoded in a filename: the digits before the dash. -/
def fileIndex (s : List Char) : ℕ :=
  parseNat (s.takeWhile (fun c => c != '-'))

theorem fileIndex_mkFilename (i t : ℕ) (e : Bool) :
    fileIndex (mkFilename i t e) = i := by
  unfold fileIndex mkFilename
  have hassoc : pad3 i ++ ['-'] ++ natChars t ++
      (if e then "ms-ERROR.png".toList else "ms.png".toList) =
      pad3 i ++ '-' :: (natChars t ++
        (if e then "ms-ERROR.png".toList else "ms.png".toList)) := by
    simp
  rw [hassoc, takeWhile_append_dash _ _ (pad3_ne_dash i), parseNat_pad3]

theorem mkFilename_index_inj {i t : ℕ} {e : Bool} {i' t' : ℕ} {e' : Bool}
    (h : mkFilename i t e = mkFilename i' t' e') : i = i' := by
  rw [← fileIndex_mkFilename i t e, h, fileIndex_mkFilename]

/-! ### Capture state (`ScreenshotCapturer`, `src/core/capturer.ts`)

The capturer's mutable state is the screenshot array, the key-frame index
set and the previous-analysis pointer.  `takeScreenshot` (lines 107-157) and
`captureErrorScreenshot` (lines 322-349) read `this.screenshots.length` and
the timestamp at initiation (lines 108-109 / 324-326), then await
`browser.screenshot(...)`, and only push the record and update the key-frame
set at completion (line 146 / lines 342-343).  Captures can therefore
overlap: two async `pageerror` handlers started in the same millisecond read
the same index and the same timestamp and later push two records with
identical filenames.  An event below records one completed capture, carrying
the index (`initIndex`) and timestamp read at its initiation; the transition
is the completion (push plus set update), a single step of the cooperative
scheduler.  The `pageerror`/`crash` handlers are installed before
navigation, so error samples may complete at any position, including before
the scheduled `initial` sample and after the `final` one. -/

inductive Phase
  | initial
  | loading
  | final
  deriving DecidableEq, Repr

/-- Per-sample analyzer outcome, as far as the capture state consumes it:
`sig` is `compareAnalyses(previousAnalysis, analysis).hasSignificantChange`,
`isBlank` / `hasErrors` feed the screenshot annotations. -/
structure SampleEventData where
  timestamp : ℕ
  sig : Bool
  isBlank : Bool
  hasErrors : Bool
  deriving DecidableEq, Repr

/-- One manifest screenshot entry (the fields the claims mention). -/
structure Screenshot where
  filename : List Char
  timestamp : ℕ
  phase : Phase
  blankScreen : Bool
  hasErrors : Bool
  isKeyFrame : Bool
  deriving DecidableEq, Repr

/-- One completed capture: a scheduled sample (`takeScreenshot`) or an
out-of-band error sample (`captureErrorScreenshot`, from a
`pageerror`/`crash` handler).  `initIndex` is the value of
`this.screenshots.length` the capture read when it was initiated: for
serialized captures it equals the position at which the record is pushed,
but an overlapping capture reads a smaller value. -/
inductive CapEvent
  | sample (phase : Phase) (initIndex : ℕ) (d : SampleEventData)
  | errorSample (initIndex : ℕ) (timestamp : ℕ)
  deriving DecidableEq, Repr

/-- The capturer's state: `screenshots`, `keyFrameIndices` (a JS `Set`,
kept in insertion order) and whether `previousAnalysis` is non-null. -/
structure CapState where
  screenshots : List Screenshot
  keyFrameIndices : List ℕ
  hasPrevAnalysis : Bool
  deriving DecidableEq, Repr

def initialCapState : CapState := ⟨[], [], false⟩

/-- JS `Set.prototype.add` on the insertion-ordered index list: adding an
element already present is a no-op. -/
def insertSet (l : List ℕ) (i : ℕ) : List ℕ :=
  if i ∈ l then l else l ++ [i]

/-- Embeds the completion of `ScreenshotCapturer.takeScreenshot`: the pushed
record carries the filename derived from the initiation-time index and
timestamp; the first sample (null `previousAnalysis`) is always flagged,
later ones exactly when the diff is significant; the `isKeyFrame`
annotation is `this.keyFrameIndices.has(index)` evaluated after the
optional add. -/
def takeScreenshot (s : CapState) (phase : Phase) (initIndex : ℕ)
    (d : SampleEventData) : CapState :=
  let isKey : Bool := if s.hasPrevAnalysis then d.sig else true
  let newKfi := if isKey then insertSet s.keyFrameIndices initIndex
                else s.keyFrameIndices
  { screenshots := s.screenshots ++
      [{ filename := mkFilename initIndex d.timestamp false
         timestamp := d.timestamp
         phase := phase
         blankScreen := d.isBlank
         hasErrors := d.hasErrors
         isKeyFrame := decide (initIndex ∈ newKfi) }]
    keyFrameIndices := newKfi
    hasPrevAnalysis := true }

/-- Embeds the completion of `ScreenshotCapturer.captureErrorScreenshot`:
phase `loading`, literal `isKeyFrame: true`, `hasErrors` set;
`previousAnalysis` is not touched, and the `blankScreen` annotation is
absent in the code (reads as falsy). -/
def captureErrorScreenshot (s : CapState) (initIndex timestamp : ℕ) : CapState :=
  { screenshots := s.screenshots ++
      [{ filename := mkFilename initIndex timestamp true
         timestamp := timestamp
         phase := Phase.loading
         blankScreen := false
         hasErrors := true
         isKeyFrame := true }]
    keyFrameIndices := insertSet s.keyFrameIndices initIndex
    hasPrevAnalysis := s.hasPrevAnalysis }

def capStep (s : CapState) : CapEvent → CapState
  | .sample p i d => takeScreenshot s p i d
  | .errorSample i t => captureErrorScreenshot s i t

/-- The capture state after a session whose captures completed in the order
given by `events`. -/
def runCapture (events : List CapEvent) : CapState :=
  events.foldl capStep initialCapState

/-- The phases of the scheduled (non-error) samples of an event sequence. -/
def scheduledPhases (events : List CapEvent) : List Phase :=
  events.filterMap (fun e =>
    match e with
    | .sample p _ _ => some p
    | .errorSample _ _ => none)

/-- The initiation-time index a completed capture carries. -/
def eventInitIndex : CapEvent → ℕ
  | .sample _ i _ => i
  | .errorSample i _ => i

/-- `serializedFrom n events` holds when, starting from an array of length
`n`, every capture's initiation-time index equals the array length at its
completion — i.e. no two captures were in flight at once. -/
def serializedFrom : ℕ → List CapEvent → Bool
  | _, [] => true
  | n, e :: rest => decide (eventInitIndex e = n) && serializedFrom (n + 1) rest

/-- A session's captures were serialized: each completed before the next was
initiated. -/
def Serialized (events : List CapEvent) : Prop := serializedFrom 0 events = true

/-- Embeds `ScreenshotCapturer.identifyKeyFrames`: the filenames of the flagged
indices, plus the last screenshot's filename when not flagged, sorted by the
JS default ascending string order. -/
def identifyKeyFrames (s : CapState) : List (List Char) :=
  let base := s.keyFrameIndices.filterMap
    (fun i => (s.screenshots[i]?).map (·.filename))
  let lastIndex := s.screenshots.length - 1
  let withLast :=
    match s.screenshots[lastIndex]? with
    | some sc =>
      if lastIndex ∈ s.keyFrameIndices then base else base ++ [sc.filename]
    | none => base
  List.insertionSort (· ≤ ·) withLast

/-! ### Capture-state invariants -/

/-- Every step appends exactly one screenshot. -/
theorem capStep_screenshots (s : CapState) (e : CapEvent) :
    ∃ x, (capStep s e).screenshots = s.screenshots ++ [x] := by
  cases e with
  | sample p i d => exact ⟨_, rfl⟩
  | errorSample i t => exact ⟨_, rfl⟩

theorem capStep_length (s : CapState) (e : CapEvent) :
    (capStep s e).screenshots.length = s.screenshots.length + 1 := by
  rcases capStep_screenshots s e with ⟨x, hx⟩
  rw [hx]
  simp

/-- Invariant of serialized capture states: flagged indices are distinct and
in range, and every screenshot's filename encodes its own array position. -/
def CapInv (s : CapState) : Prop :=
  s.keyFrameIndices.Nodup ∧
  (∀ i ∈ s.keyFrameIndices, i < s.screenshots.length) ∧
  (∀ i, ∀ h : i < s.screenshots.length,
    ∃ t e, (s.screenshots[i]).filename = mkFilename i t e)

theorem capInv_initial : CapInv initialCapState := by
  refine ⟨List.nodup_nil, ?_, ?_⟩
  · intro i hi; simp [initialCapState] at hi
  · intro i h; simp [initialCapState] at h

theorem filename_getElem_append {l : List Screenshot} {x : Screenshot}
    {i : ℕ} (h : i < (l ++ [x]).length) :
    (l ++ [x])[i] = if hi : i < l.length then l[i] else x := by
  by_cases hi : i < l.length
  · rw [dif_pos hi]
    exact List.getElem_append_left hi
  · rw [dif_neg hi]
    have hlen : i = l.length := by
      simp at h
      omega
    subst hlen
    simp

theorem capInv_takeScreenshot (s : CapState) (p : Phase) (i : ℕ)
    (d : SampleEventData) (hinv : CapInv s)
    (hidx : i = s.screenshots.length) :
    CapInv (takeScreenshot s p i d) := by
  subst hidx
  obtain ⟨hnodup, hrange, hname⟩ := hinv
  have hfresh : s.screenshots.length ∉ s.keyFrameIndices :=
    fun hmem => absurd (hrange _ hmem) (lt_irrefl _)
  have hins : insertSet s.keyFrameIndices s.screenshots.length =
      s.keyFrameIndices ++ [s.screenshots.length] := by
    unfold insertSet
    rw [if_neg hfresh]
  unfold takeScreenshot
  refine ⟨?_, ?_, ?_⟩
  · by_cases hk : (if s.hasPrevAnalysis then d.sig else true) = true
    · simp only [hk, if_true, hins]
      exact List.Nodup.append hnodup (List.nodup_singleton _)
        (List.disjoint_singleton.mpr hfresh)
    · simp only [hk, if_false]
      exact hnodup
  · intro j hj
    simp only [List.length_append, List.length_singleton]
    by_cases hk : (if s.hasPrevAnalysis then d.sig else true) = true
    · simp only [hk, if_true, hins] at hj
      rcases List.mem_append.mp hj with h | h
      · exact Nat.lt_succ_of_lt (hrange j h)
      · rw [List.mem_singleton.mp h]; omega
    · simp only [hk, if_false] at hj
      exact Nat.lt_succ_of_lt (hrange j hj)
  · intro j h
    rw [filename_getElem_append]
    by_cases hj : j < s.screenshots.length
    · rw [dif_pos hj]; exact hname j hj
    · rw [dif_neg hj]
      have : j = s.screenshots.length := by
        simp at h; omega
      subst this
      exact ⟨d.timestamp, false, rfl⟩

theorem capInv_captureErrorScreenshot (s : CapState) (i t : ℕ)
    (hinv : CapInv s) (hidx : i = s.screenshots.length) :
    CapInv (captureErrorScreenshot s i t) := by
  subst hidx
  obtain ⟨hnodup, hrange, hname⟩ := hinv
  have hfresh : s.screenshots.length ∉ s.keyFrameIndices :=
    fun hmem => absurd (hrange _ hmem) (lt_irrefl _)
  have hins : insertSet s.keyFrameIndices s.screenshots.length =
      s.keyFrameIndices ++ [s.screenshots.length] := by
    unfold insertSet
    rw [if_neg hfresh]
  unfold captureErrorScreenshot
  refine ⟨?_, ?_, ?_⟩
  · rw [hins]
    exact List.Nodup.append hnodup (List.nodup_singleton _)
      (List.disjoint_singleton.mpr hfresh)
  · intro j hj
    rw [hins] at hj
    simp only [List.length_append, List.length_singleton]
    rcases List.mem_append.mp hj with h | h
    · exact Nat.lt_succ_of_lt (hrange j h)
    · rw [List.mem_singleton.mp h]; omega
  · intro j h
    rw [filename_getElem_append]
    by_cases hj : j < s.screenshots.length
    · rw [dif_pos hj]; exact hname j hj
    · rw [dif_neg hj]
      have : j = s.screenshots.length := by
        simp at h; omega
      subst this
      exact ⟨t, true, rfl⟩

theorem capInv_capStep (s : CapState) (e : CapEvent) (hinv : CapInv s)
    (hidx : eventInitIndex e = s.screenshots.length) :
    CapInv (capStep s e) := by
  cases e with
  | sample p i d => exact capInv_takeScreenshot s p i d hinv hidx
  | errorSample i t => exact capInv_captureErrorScreenshot s i t hinv hidx

theorem capInv_foldl (events : List CapEvent) :
    ∀ s, CapInv s → serializedFrom s.screenshots.length events = true →
      CapInv (events.foldl capStep s) := by
  induction events with
  | nil => intro s h _; exact h
  | cons e rest ih =>
    intro s h hser
    unfold serializedFrom at hser
    rw [Bool.and_eq_true] at hser
    obtain ⟨h0, hrest⟩ := hser
    refine ih (capStep s e) (capInv_capStep s e h (of_decide_eq_true h0)) ?_
    rw [capStep_length]
    exact hrest

theorem capInv_runCapture (events : List CapEvent) (hser : Serialized events) :
    CapInv (runCapture events) :=
  capInv_foldl events initialCapState capInv_initial hser

theorem fileIndex_of_getElem (s : CapState)
    (hname : ∀ i, ∀ h : i < s.screenshots.length,
      ∃ t e, (s.screenshots[i]).filename = mkFilename i t e)
    (i : ℕ) (h : i < s.screenshots.length) :
    fileIndex ((s.screenshots[i]).filename) = i := by
  obtain ⟨t, e, hfe⟩ := hname i h
  rw [hfe, fileIndex_mkFilename]

theorem identifyKeyFrames_spec (s : CapState) (hinv : CapInv s) :
    (identifyKeyFrames s).Nodup ∧
    List.Sorted (· ≤ ·) (identifyKeyFrames s) ∧
    (∀ sc, s.screenshots.getLast? = some sc →
      sc.filename ∈ identifyKeyFrames s) := by
  obtain ⟨hnd, hrange, hname⟩ := hinv
  set base := s.keyFrameIndices.filterMap
    (fun i => (s.screenshots[i]?).map (·.filename)) with hbase
  have hmem_base : ∀ b, b ∈ base →
      ∃ i, ∃ hi : i < s.screenshots.length,
        i ∈ s.keyFrameIndices ∧ b = (s.screenshots[i]).filename := by
    intro b hb
    rcases List.mem_filterMap.mp hb with ⟨i, hi, hf⟩
    rcases Option.map_eq_some'.mp hf with ⟨sc, hsc, hfn⟩
    rcases List.getElem?_eq_some.mp hsc with ⟨hlt, hget⟩
    exact ⟨i, hlt, hi, by rw [← hfn, ← hget]⟩
  have hnd_base : base.Nodup := by
    refine List.Nodup.filterMap ?_ hnd
    intro a a' b hba hba'
    rcases Option.map_eq_some'.mp hba with ⟨sc, hsc, hfn⟩
    rcases Option.map_eq_some'.mp hba' with ⟨sc', hsc', hfn'⟩
    rcases List.getElem?_eq_some.mp hsc with ⟨hlt, hget⟩
    rcases List.getElem?_eq_some.mp hsc' with ⟨hlt', hget'⟩
    have ha : fileIndex b = a := by
      rw [← hfn, ← hget]; exact fileIndex_of_getElem s hname a hlt
    have ha' : fileIndex b = a' := by
      rw [← hfn', ← hget']; exact fileIndex_of_getElem s hname a' hlt'
    omega
  set lastIndex := s.screenshots.length - 1 with hlastIdx
  set withLast :=
    (match s.screenshots[lastIndex]? with
     | some sc =>
       if lastIndex ∈ s.keyFrameIndices then base else base ++ [sc.filename]
     | none => base) with hwl
  have hIKF : identifyKeyFrames s = List.insertionSort (· ≤ ·) withLast := rfl
  have hnodup_wl : withLast.Nodup := by
    rw [hwl]
    cases hg : s.screenshots[lastIndex]? with
    | none => exact hnd_base
    | some sc =>
      by_cases hin : lastIndex ∈ s.keyFrameIndices
      · simp only [hin, if_true]
        exact hnd_base
      · simp only [hin, if_false]
        rcases List.getElem?_eq_some.mp hg with ⟨hlt, hget⟩
        refine List.Nodup.append hnd_base (List.nodup_singleton _) ?_
        intro b hb hb'
        rw [List.mem_singleton.mp hb'] at hb
        rcases hmem_base _ hb with ⟨i, hi, hik, hbi⟩
        have : i = lastIndex := by
          have h1 : fileIndex sc.filename = i := by
            rw [hbi]; exact fileIndex_of_getElem s hname i hi
          have h2 : fileIndex sc.filename = lastIndex := by
            rw [← hget]; exact fileIndex_of_getElem s hname lastIndex hlt
          omega
        exact hin (this ▸ hik)
  refine ⟨?_, ?_, ?_⟩
  · rw [hIKF]
    exact (List.perm_insertionSort (· ≤ ·) withLast).nodup_iff.mpr hnodup_wl
  · rw [hIKF]
    exact List.sorted_insertionSort (· ≤ ·) withLast
  · intro sc hlast
    rw [List.getLast?_eq_getElem?] at hlast
    rw [hIKF]
    refine (List.perm_insertionSort (· ≤ ·) withLast).mem_iff.mpr ?_
    rw [hwl, hlast]
    by_cases hin : lastIndex ∈ s.keyFrameIndices
    · simp only [hin, if_true]
      exact List.mem_filterMap.mpr ⟨lastIndex, hin, by rw [hlast]; rfl⟩
    · simp only [hin, if_false]
      exact List.mem_append_right _ (List.mem_singleton.mpr rfl)

/-- For every capture state — including states produced by overlapping
captures — the key-frame list is sorted ascending and contains the last
screenshot's filename. -/
theorem identifyKeyFrames_sorted_last (s : CapState) :
    List.Sorted (· ≤ ·) (identifyKeyFrames s) ∧
    (∀ sc, s.screenshots.getLast? = some sc →
      sc.filename ∈ identifyKeyFrames s) := by
  set base := s.keyFrameIndices.filterMap
    (fun i => (s.screenshots[i]?).map (·.filename)) with hbase
  set lastIndex := s.screenshots.length - 1 with hlastIdx
  set withLast :=
    (match s.screenshots[lastIndex]? with
     | some sc =>
       if lastIndex ∈ s.keyFrameIndices then base else base ++ [sc.filename]
     | none => base) with hwl
  have hIKF : identifyKeyFrames s = List.insertionSort (· ≤ ·) withLast := rfl
  refine ⟨?_, ?_⟩
  · rw [hIKF]
    exact List.sorted_insertionSort (· ≤ ·) withLast
  · intro sc hlast
    rw [List.getLast?_eq_getElem?] at hlast
    rw [hIKF]
    refine (List.perm_insertionSort (· ≤ ·) withLast).mem_iff.mpr ?_
    rw [hwl, hlast]
    by_cases hin : lastIndex ∈ s.keyFrameIndices
    · simp only [hin, if_true]
      exact List.mem_filterMap.mpr ⟨lastIndex, hin, by rw [hlast]; rfl⟩
    · simp only [hin, if_false]
      exact List.mem_append_right _ (List.mem_singleton.mpr rfl)

/-- Claim C3, amended: for every session the manifest's key-frame list is
sorted ascending and contains the last screenshot's filename (whether or not
that frame was flagged significant); it is additionally duplicate-free
whenever the session's captures were serialized, i.e. each capture was
pushed at the index it read at initiation.  Overlapping captures can share
an index and a millisecond and then duplicate a filename — see the
counterexample. -/
theorem manifest_key_frames_invariant (events : List CapEvent) :
    List.Sorted (· ≤ ·) (identifyKeyFrames (runCapture events)) ∧
    (∀ sc, (runCapture events).screenshots.getLast? = some sc →
      sc.filename ∈ identifyKeyFrames (runCapture events)) ∧
    (Serialized events → (identifyKeyFrames (runCapture events)).Nodup) :=
  ⟨(identifyKeyFrames_sorted_last (runCapture events)).1,
   (identifyKeyFrames_sorted_last (runCapture events)).2,
   fun hser => (identifyKeyFrames_spec (runCapture events)
     (capInv_runCapture events hser)).1⟩

/-- Counterexample session to C3 as stated: after the initial sample, two
`pageerror` handlers run concurrently; both read `this.screenshots.length`
as 1 and the same elapsed millisecond 500 (capturer.ts lines 324-326) before
awaiting `browser.screenshot`, so both completions push a record named
`001-500ms-ERROR.png`. -/
def c3DupEvents : List CapEvent :=
  [CapEvent.sample Phase.initial 0 ⟨0, false, false, false⟩,
   CapEvent.errorSample 1 500,
   CapEvent.errorSample 1 500]

/-- Counterexample to C3 as stated: the duplicated error filename appears
twice in `analysis.keyFrames` — once via the key-frame index set, once via
the always-include-last branch — so the list is not duplicate-free. -/
theorem manifest_key_frames_duplicate :
    (identifyKeyFrames (runCapture c3DupEvents)).count
      (mkFilename 1 500 true) = 2 ∧
    ¬(identifyKeyFrames (runCapture c3DupEvents)).Nodup := by
  refine ⟨by decide, by decide⟩

/-- Serialized session used as the C3 witness: initial sample, one error
sample, and a final sample that was not flagged significant. -/
def c3Events : List CapEvent :=
  [CapEvent.sample Phase.initial 0 ⟨0, false, false, false⟩,
   CapEvent.errorSample 1 123,
   CapEvent.sample Phase.final 2 ⟨456, false, false, false⟩]

/-- Witness for C3's amended theorem on a concrete serialized session: the
final frame was not flagged significant, yet its filename is in the sorted,
duplicate-free key-frame list. -/
theorem manifest_key_frames_invariant_witness :
    List.Sorted (· ≤ ·) (identifyKeyFrames (runCapture c3Events)) ∧
    ({ filename := mkFilename 2 456 false
       timestamp := 456
       phase := Phase.final
       blankScreen := false
       hasErrors := false
       isKeyFrame := false } : Screenshot).filename ∈
      identifyKeyFrames (runCapture c3Events) ∧
    (identifyKeyFrames (runCapture c3Events)).Nodup :=
  ⟨(manifest_key_frames_invariant c3Events).1,
   (manifest_key_frames_invariant c3Events).2.1 _ (by decide),
   (manifest_key_frames_invariant c3Events).2.2
     (show serializedFrom 0 c3Events = true by decide)⟩

/-! ### First/last sample phases (claim C4)

`captureSequence` installs the `pageerror`/`crash` handlers (lines 56-64 of
`capturer.ts`) before `browser.navigate` and before the `initial` sample is
taken, and the handlers stay installed until the session ends.  A page error
raised while `page.goto` is still pending therefore completes
`captureErrorScreenshot` before `takeScreenshot('initial', 0)`, and one
raised during the final capture can be appended after the `final` sample.
The completion order of a session is hence an arbitrary interleaving of the
scheduled samples `initial, loading*, final` with error samples. -/

theorem foldl_capStep_screenshots (l : List CapEvent) :
    ∀ s, ∃ rest, (l.foldl capStep s).screenshots = s.screenshots ++ rest := by
  induction l with
  | nil => intro s; exact ⟨[], by simp⟩
  | cons e tl ih =>
    intro s
    rcases capStep_screenshots s e with ⟨x, hx⟩
    rcases ih (capStep s e) with ⟨rest, hrest⟩
    exact ⟨[x] ++ rest, by rw [List.foldl_cons, hrest, hx, List.append_assoc]⟩

theorem takeScreenshot_getLast_phase (s : CapState) (p : Phase) (i : ℕ)
    (d : SampleEventData) :
    ((takeScreenshot s p i d).screenshots.getLast?).map (·.phase) = some p := by
  simp only [takeScreenshot]
  rw [List.getLast?_concat]
  rfl

theorem captureErrorScreenshot_getLast_phase (s : CapState) (i t : ℕ) :
    ((captureErrorScreenshot s i t).screenshots.getLast?).map (·.phase) =
      some Phase.loading := by
  simp only [captureErrorScreenshot]
  rw [List.getLast?_concat]
  rfl

/-- Counterexample session for C4: the page errors while navigation is still
pending (the handler reads index 0 and completes first), so the error sample
is appended before the scheduled `initial` sample. -/
def c4Events : List CapEvent :=
  [CapEvent.errorSample 0 5,
   CapEvent.sample Phase.initial 1 ⟨0, false, false, false⟩,
   CapEvent.sample Phase.final 2 ⟨900, false, false, false⟩]

/-- Counterexample to C4 as stated: `c4Events` is a session whose scheduled
samples are exactly `initial` then `final`, yet its first recorded screenshot
is the error sample, with phase `loading`, not `initial`. -/
theorem capture_first_sample_counterexample :
    scheduledPhases c4Events = [Phase.initial, Phase.final] ∧
    ((runCapture c4Events).screenshots.head?.map (·.phase)) =
      some Phase.loading ∧
    some Phase.loading ≠ some Phase.initial := by
  refine ⟨by decide, by decide, by decide⟩

/-- Claim C4, amended: in every session in which the scheduled `initial`
sample is the first capture that completes and the scheduled `final` sample
is the last one (error samples interleaving only with the loading samples in
between), the first screenshot has phase `initial` and is a key frame and
the last screenshot has phase `final`; error samples are always recorded
with phase `loading`. -/
theorem capture_first_initial_last_final (i0 i1 : ℕ) (a b : SampleEventData)
    (mid : List CapEvent) :
    ((runCapture (CapEvent.sample Phase.initial i0 a ::
        (mid ++ [CapEvent.sample Phase.final i1 b]))).screenshots.head?.map
          (·.phase) = some Phase.initial) ∧
    ((runCapture (CapEvent.sample Phase.initial i0 a ::
        (mid ++ [CapEvent.sample Phase.final i1 b]))).screenshots.head?.map
          (·.isKeyFrame) = some true) ∧
    ((runCapture (CapEvent.sample Phase.initial i0 a ::
        (mid ++ [CapEvent.sample Phase.final i1 b]))).screenshots.getLast?.map
          (·.phase) = some Phase.final) ∧
    (∀ s j t, (captureErrorScreenshot s j t).screenshots.getLast?.map
      (·.phase) = some Phase.loading) := by
  have hrun : runCapture (CapEvent.sample Phase.initial i0 a ::
      (mid ++ [CapEvent.sample Phase.final i1 b])) =
      capStep ((mid.foldl capStep
        (capStep initialCapState (CapEvent.sample Phase.initial i0 a))))
        (CapEvent.sample Phase.final i1 b) := by
    unfold runCapture
    rw [List.foldl_cons, List.foldl_append, List.foldl_cons, List.foldl_nil]
  have hkf0 : decide (i0 ∈ insertSet ([] : List ℕ) i0) = true := by
    simp [insertSet]
  have hfirst : (capStep initialCapState
      (CapEvent.sample Phase.initial i0 a)).screenshots =
      [{ filename := mkFilename i0 a.timestamp false
         timestamp := a.timestamp
         phase := Phase.initial
         blankScreen := a.isBlank
         hasErrors := a.hasErrors
         isKeyFrame := decide (i0 ∈ insertSet ([] : List ℕ) i0) }] := rfl
  rcases foldl_capStep_screenshots mid
      (capStep initialCapState (CapEvent.sample Phase.initial i0 a)) with
    ⟨rest, hrest⟩
  rcases capStep_screenshots (mid.foldl capStep
      (capStep initialCapState (CapEvent.sample Phase.initial i0 a)))
      (CapEvent.sample Phase.final i1 b) with ⟨xfin, hxfin⟩
  have hall : (runCapture (CapEvent.sample Phase.initial i0 a ::
      (mid ++ [CapEvent.sample Phase.final i1 b]))).screenshots =
      [{ filename := mkFilename i0 a.timestamp false
         timestamp := a.timestamp
         phase := Phase.initial
         blankScreen := a.isBlank
         hasErrors := a.hasErrors
         isKeyFrame := decide (i0 ∈ insertSet ([] : List ℕ) i0) }] ++
        rest ++ [xfin] := by
    rw [hrun, hxfin, hrest, hfirst]
  refine ⟨?_, ?_, ?_, ?_⟩
  · rw [hall]; rfl
  · rw [hall]
    show some (decide (i0 ∈ insertSet ([] : List ℕ) i0)) = some true
    rw [hkf0]
  · rw [hrun]
    exact takeScreenshot_getLast_phase _ Phase.final i1 b
  · intro s j t
    exact captureErrorScreenshot_getLast_phase s j t


/-! ### Issue detection and manifest fields (`capturer.ts`) -/

def blankIssueMsg : List Char := "Page appears blank at end of capture".toList

def timeoutIssueMsg : List Char := "Loading did not complete within timeout".toList

def errorsIssueSuffix : List Char := " screenshots contain errors".toList

/-- First part of `detectIssues`: blank-screen annotation of the last
screenshot (absent annotations read as falsy). -/
def blankIssues (ss : List Screenshot) : List (List Char) :=
  match ss.getLast? with
  | some sc => if sc.blankScreen then [blankIssueMsg] else []
  | none => []

/-- Third part of `detectIssues`: `"<n> screenshots contain errors"`. -/
def errorCountIssues (ss : List Screenshot) : List (List Char) :=
  if 0 < (ss.filter (·.hasErrors)).length then
    [natChars (ss.filter (·.hasErrors)).length ++ errorsIssueSuffix]
  else []

/-- Embeds `ScreenshotCapturer.detectIssues`. -/
def detectIssues (ss : List Screenshot) (loadingComplete : Bool) : List (List Char) :=
  blankIssues ss ++
  (if loadingComplete then [] else [timeoutIssueMsg]) ++
  errorCountIssues ss

/-- The manifest's `analysis.loadingDuration`:
`this.loadingCompleteTime || this.config.duration!` — a JS falsy-or, so a
stored completion time of 0 falls back to the configured duration. -/
def loadingDurationOf (loadingCompleteTime duration : ℕ) : ℕ :=
  if loadingCompleteTime = 0 then duration else loadingCompleteTime

/-- Embeds `ScreenshotCapturer.detectLoading`: the fields
`(loadingComplete, loadingCompleteTime)` after the detector resolved with
`isComplete` at `elapsed` ms (they keep their initial values `(false, 0)`
when it resolved false). -/
def detectLoadingUpdate (isComplete : Bool) (elapsed : ℕ) : Bool × ℕ :=
  if isComplete then (true, elapsed) else (false, 0)

theorem take_len_append (l₁ l₂ : List Char) : (l₁ ++ l₂).take l₁.length = l₁ := by
  simp

theorem timeout_ne_error_issue (n : ℕ) :
    timeoutIssueMsg ≠ natChars n ++ errorsIssueSuffix := by
  intro h
  have h2 : timeoutIssueMsg.reverse =
      errorsIssueSuffix.reverse ++ (natChars n).reverse := by
    rw [h, List.reverse_append]
  have h3 : timeoutIssueMsg.reverse.take errorsIssueSuffix.reverse.length =
      errorsIssueSuffix.reverse := by
    rw [h2, take_len_append]
  exact absurd h3 (by decide)

theorem mem_blankIssues {ss : List Screenshot} {x : List Char}
    (hx : x ∈ blankIssues ss) : x = blankIssueMsg := by
  unfold blankIssues at hx
  cases hg : ss.getLast? with
  | none => rw [hg] at hx; cases hx
  | some sc =>
    rw [hg] at hx
    dsimp only at hx
    by_cases hb : sc.blankScreen
    · rw [if_pos hb] at hx
      exact List.mem_singleton.mp hx
    · rw [if_neg hb] at hx; cases hx

theorem mem_errorCountIssues {ss : List Screenshot} {x : List Char}
    (hx : x ∈ errorCountIssues ss) :
    ∃ n, x = natChars n ++ errorsIssueSuffix := by
  unfold errorCountIssues at hx
  by_cases hc : 0 < (ss.filter (·.hasErrors)).length
  · rw [if_pos hc] at hx
    exact ⟨_, List.mem_singleton.mp hx⟩
  · rw [if_neg hc] at hx; cases hx

/-- The loading-timeout message appears in `detectIssues` exactly when the
`loadingComplete` flag is false at manifest time. -/
theorem timeout_issue_iff (ss : List Screenshot) (lc : Bool) :
    timeoutIssueMsg ∈ detectIssues ss lc ↔ lc = false := by
  constructor
  · intro hmem
    cases lc with
    | false => rfl
    | true =>
      exfalso
      unfold detectIssues at hmem
      rw [if_pos rfl] at hmem
      rcases List.mem_append.mp hmem with h | h
      · rw [List.append_nil] at h
        exact absurd (mem_blankIssues h) (by decide)
      · rcases mem_errorCountIssues h with ⟨n, hn⟩
        exact timeout_ne_error_issue n hn
  · intro h
    subst h
    unfold detectIssues
    rw [if_neg (by simp)]
    exact List.mem_append.mpr (Or.inl (List.mem_append.mpr
      (Or.inr (List.mem_singleton.mpr rfl))))

/-! ### Loading strategies in discrete time (`src/core/detector.ts`)

Each strategy's `detect(page)` is abstracted by the boolean it eventually
resolves with and the elapsed time (ms since `detect` was called) at which it
resolves.  `Promise.all` resolves when its last member resolves, with the
list of member results; `CompositeStrategy.detect` then returns
`results.some(r => r)`. -/

structure TimedStrategy where
  value : Bool
  time : ℕ
  deriving DecidableEq, Repr

/-- Embeds `TimeoutStrategy(duration)`: resolves `true` after exactly `duration` ms. -/
def timeoutStrategy (duration : ℕ) : TimedStrategy := ⟨true, duration⟩

/-- Resolution time of `Promise.all` over processes with the given times. -/
def promiseAllTime (times : List ℕ) : ℕ := times.foldr max 0

/-- Embeds `CompositeStrategy.detect`: awaits `Promise.all` of the members' `detect`
calls, then ORs the results.  The pair is (result, resolution time). -/
def compositeDetect (members : List TimedStrategy) : Bool × ℕ :=
  ((members.map (·.value)).any id, promiseAllTime (members.map (·.time)))

/-- The resolution time a first-to-finish race (the spec's reading) would
give: the earliest time at which some member resolves `true`. -/
def raceFirstTrueTime (members : List TimedStrategy) : Option ℕ :=
  ((members.filter (·.value)).map (·.time)).min?

theorem mem_le_foldr_max (l : List ℕ) : ∀ x ∈ l, x ≤ l.foldr max 0 := by
  induction l with
  | nil => intro x hx; cases hx
  | cons a t ih =>
    intro x hx
    rcases List.mem_cons.mp hx with h | h
    · subst h; exact le_max_left _ _
    · exact le_trans (ih x h) (le_max_right _ _)

theorem foldr_max_mem (l : List ℕ) (h : l ≠ []) : l.foldr max 0 ∈ l := by
  induction l with
  | nil => exact absurd rfl h
  | cons a t ih =>
    cases t with
    | nil => simp
    | cons b u =>
      by_cases hle : (b :: u).foldr max 0 ≤ a
      · rw [List.foldr_cons, Nat.max_eq_left hle]
        exact List.mem_cons_self a _
      · rw [List.foldr_cons, Nat.max_eq_right (by omega)]
        exact List.mem_cons_of_mem a (ih (by simp))

/-- Counterexample to C1 as stated: with a member that resolves `true`
immediately and a pending fixed-timeout member, the composite resolves only
at 100 ms — the time of the timeout member — not at 0 ms as a
first-to-finish race would. -/
theorem detector_composite_not_race :
    raceFirstTrueTime [⟨true, 0⟩, timeoutStrategy 100] = some 0 ∧
    (compositeDetect [⟨true, 0⟩, timeoutStrategy 100]).2 = 100 ∧
    (100 : ℕ) ≠ 0 := by
  refine ⟨by decide, by decide, by decide⟩

/-- Claim C1, amended: the composite detector returns the logical OR of its
members' results, but it resolves only after every member has settled
(`Promise.all`): each member's resolution time bounds the composite's from
below, and the composite's resolution time is one of the member times. -/
theorem detector_composite_or_waits_all (members : List TimedStrategy) :
    (compositeDetect members).1 = members.any (·.value) ∧
    (∀ m ∈ members, m.time ≤ (compositeDetect members).2) ∧
    (members ≠ [] → (compositeDetect members).2 ∈ members.map (·.time)) := by
  refine ⟨?_, ?_, ?_⟩
  · show (members.map (·.value)).any id = members.any (·.value)
    induction members with
    | nil => rfl
    | cons a t ih => simp only [List.map_cons, List.any_cons, ih, id]
  · intro m hm
    exact mem_le_foldr_max _ _ (List.mem_map_of_mem (·.time) hm)
  · intro hne
    exact foldr_max_mem _ (by simpa using hne)

/-- Witness for C1's amended theorem at a network-idle-fails / timeout-fires
member list. -/
theorem detector_composite_or_waits_all_witness :
    (⟨false, 2000⟩ : TimedStrategy).time ≤
      (compositeDetect [⟨false, 2000⟩, timeoutStrategy 10000]).2 ∧
    (compositeDetect [⟨false, 2000⟩, timeoutStrategy 10000]).2 ∈
      ([⟨false, 2000⟩, timeoutStrategy 10000] : List TimedStrategy).map (·.time) :=
  ⟨(detector_composite_or_waits_all [⟨false, 2000⟩, timeoutStrategy 10000]).2.1
      ⟨false, 2000⟩ (by decide),
   (detector_composite_or_waits_all [⟨false, 2000⟩, timeoutStrategy 10000]).2.2
      (by decide)⟩

/-! ### The timed capture choreography (`captureSequence`, claims C5/C10)

`LoadingDetector.createFromConfig` always appends a `NetworkIdleStrategy`
and a `TimeoutStrategy(config.duration || 10000)` (and an
`ElementPresentStrategy` first when `config.waitFor` is set).
`captureSequence` races `Promise.all([detection, intervals])` against a
`setTimeout(config.duration)`, then takes the final screenshot
(`finalDelay` ms of browser I/O) and generates the manifest.
`loadingComplete` is set by `detectLoading` when the composite resolves
`true`, i.e. it is observable at any instant at or after the composite's
resolution time. -/

structure TimedSession where
  duration : ℕ
  intervalMs : ℕ
  waitForOutcome : Option TimedStrategy
  networkIdleOutcome : TimedStrategy
  finalDelay : ℕ
  deriving DecidableEq, Repr

/-- The member strategies `createFromConfig` builds for a session, with their
timed outcomes.  The timeout member resolves `true` at
`config.duration || 10000` ms. -/
def sessionMembers (s : TimedSession) : List TimedStrategy :=
  (match s.waitForOutcome with
   | some m => [m]
   | none => []) ++
  [s.networkIdleOutcome,
   timeoutStrategy (if s.duration = 0 then 10000 else s.duration)]

def detectorValue (s : TimedSession) : Bool :=
  (compositeDetect (sessionMembers s)).1

def detectorTime (s : TimedSession) : ℕ :=
  (compositeDetect (sessionMembers s)).2

/-- Whether `this.loadingComplete` is observable as `true` at elapsed `t`. -/
def loadingCompleteAt (s : TimedSession) (t : ℕ) : Bool :=
  detectorValue s && decide (detectorTime s ≤ t)

/-- The interval sampler loop (`captureAtIntervals`): rechecks
`!this.loadingComplete && elapsed < duration` every `intervalMs`; the fuel
(`duration + 1` at top level) only bounds the recursion. -/
def intervalLoopEnd (complete : ℕ → Bool) (duration intervalMs : ℕ) :
    ℕ → ℕ → ℕ
  | 0, t => t
  | fuel + 1, t =>
    if complete t || decide (duration ≤ t) then t
    else intervalLoopEnd complete duration intervalMs fuel (t + intervalMs)

def intervalEnd (s : TimedSession) : ℕ :=
  intervalLoopEnd (loadingCompleteAt s) s.duration s.intervalMs (s.duration + 1) 0

/-- When `Promise.race([Promise.all([detection, intervals]), sleep(duration)])`
settles. -/
def raceSettleTime (s : TimedSession) : ℕ :=
  min (max (detectorTime s) (intervalEnd s)) s.duration

/-- When `generateManifest` runs: after the race settles plus the final
screenshot's I/O. -/
def manifestTime (s : TimedSession) : ℕ := raceSettleTime s + s.finalDelay

def loadingCompleteAtManifest (s : TimedSession) : Bool :=
  loadingCompleteAt s (manifestTime s)

/-- The field `this.loadingCompleteTime` as read by `generateManifest`. -/
def sessionLoadingCompleteTime (s : TimedSession) : ℕ :=
  if loadingCompleteAtManifest s then detectorTime s else 0

def sessionLoadingDuration (s : TimedSession) : ℕ :=
  loadingDurationOf (sessionLoadingCompleteTime s) s.duration

/-- Counterexample session for C5: default strategy set (no `waitFor`),
network idle never observed, duration 10000 ms. -/
def c5Session : TimedSession :=
  { duration := 10000
    intervalMs := 500
    waitForOutcome := none
    networkIdleOutcome := ⟨false, 2000⟩
    finalDelay := 50 }

/-- Counterexample to C5 as stated: in `c5Session` no member strategy reports
done before the 10000 ms deadline (network idle resolves `false`, the timeout
member fires `true` exactly at the deadline), yet the timeout member makes
`loadingComplete` true before the manifest is generated, so the manifest does
not contain the loading-timeout issue. -/
theorem manifest_timeout_issue_counterexample :
    (∀ m ∈ sessionMembers c5Session,
      ¬(m.value = true ∧ m.time < c5Session.duration)) ∧
    timeoutIssueMsg ∉ detectIssues [] (loadingCompleteAtManifest c5Session) := by
  refine ⟨by decide, by decide⟩

/-- Claim C5, amended: the manifest carries the loading-timeout issue exactly
when `loadingComplete` is still false when the manifest is generated, and in
that case `analysis.loadingDuration` equals the configured maximum duration. -/
theorem manifest_timeout_issue (s : TimedSession) (ss : List Screenshot) :
    (timeoutIssueMsg ∈ detectIssues ss (loadingCompleteAtManifest s) ↔
      loadingCompleteAtManifest s = false) ∧
    (loadingCompleteAtManifest s = false →
      sessionLoadingDuration s = s.duration) := by
  refine ⟨timeout_issue_iff ss _, fun h => ?_⟩
  unfold sessionLoadingDuration sessionLoadingCompleteTime
  rw [h]
  simp [loadingDurationOf]

/-- Session where the detector is still pending at manifest time: a `waitFor`
selector whose 5000 ms cap outlasts a 2000 ms session duration. -/
def c5PendingSession : TimedSession :=
  { duration := 2000
    intervalMs := 500
    waitForOutcome := some ⟨false, 5000⟩
    networkIdleOutcome := ⟨false, 2000⟩
    finalDelay := 100 }

/-- Witness for C5's amended theorem. -/
theorem manifest_timeout_issue_witness :
    timeoutIssueMsg ∈ detectIssues [] (loadingCompleteAtManifest c5PendingSession) ∧
    sessionLoadingDuration c5PendingSession = 2000 :=
  ⟨(manifest_timeout_issue c5PendingSession []).1.mpr (by decide),
   (manifest_timeout_issue c5PendingSession []).2 (by decide)⟩

/-- Claim C10: `loadingDuration` is computed with a falsy-or, so a stored
completion time of 0 (also what `detectLoading` leaves when the detector
resolved `true` at elapsed 0) yields the configured duration, and for
sessions with a positive configured duration the field is never 0. -/
theorem manifest_loading_duration_fallback (duration lct : ℕ)
    (hdur : 0 < duration) :
    loadingDurationOf 0 duration = duration ∧
    loadingDurationOf ((detectLoadingUpdate true 0).2) duration = duration ∧
    loadingDurationOf ((detectLoadingUpdate false 0).2) duration =
      loadingDurationOf ((detectLoadingUpdate true 0).2) duration ∧
    loadingDurationOf lct duration ≠ 0 := by
  refine ⟨rfl, rfl, rfl, ?_⟩
  unfold loadingDurationOf
  by_cases h0 : lct = 0
  · rw [if_pos h0]; omega
  · rw [if_neg h0]; exact h0

/-- Witness for C10 at duration 10000 and stored completion time 7. -/
theorem manifest_loading_duration_fallback_witness :
    loadingDurationOf 0 10000 = 10000 ∧
    loadingDurationOf ((detectLoadingUpdate true 0).2) 10000 = 10000 ∧
    loadingDurationOf ((detectLoadingUpdate false 0).2) 10000 =
      loadingDurationOf ((detectLoadingUpdate true 0).2) 10000 ∧
    loadingDurationOf 7 10000 ≠ 0 :=
  manifest_loading_duration_fallback 10000 7 (by decide)

/-! ### Browser teardown discipline (`browser.ts` close, `capturer.ts`
`captureSequence`, claim C2)

`BrowserController.close` wraps the page/context/browser closes in a
try/catch that logs and does not rethrow.  `captureSequence` wraps its whole
body in try/catch: on the success path it calls `this.browser.close()` once
before returning (line 95); any fault raised by launch, directory creation,
navigation, a sample, or manifest persistence reaches the catch block, which
calls `this.browser.close()` once and rethrows (lines 100-104). -/

/-- The raw page/context/browser closes of `BrowserController.close`; any of
the three may fault. -/
def closeInner (pageFault contextFault browserFault : Bool) :
    Except (List Char) Unit :=
  if pageFault then Except.error "page close failed".toList
  else if contextFault then Except.error "context close failed".toList
  else if browserFault then Except.error "browser close failed".toList
  else Except.ok ()

/-- Embeds `BrowserController.close`: the catch block logs and swallows the fault. -/
def browserClose (pageFault contextFault browserFault : Bool) :
    Except (List Char) Unit :=
  match closeInner pageFault contextFault browserFault with
  | Except.ok u => Except.ok u
  | Except.error _ => Except.ok ()

theorem browserClose_never_fails :
    ∀ p c b, browserClose p c b = Except.ok () := by
  intro p c b
  cases p <;> cases c <;> cases b <;> rfl

/-- Which step of the `captureSequence` try block faults (at most the first
faulting step matters: execution aborts there). -/
structure StepFaults where
  launch : Bool
  createDir : Bool
  navigate : Bool
  sampling : Bool
  saveManifest : Bool
  deriving DecidableEq, Repr

/-- The try block of `captureSequence`, returning its result together with
the number of `browser.close()` calls it performed: the faulting step aborts
the block before the in-try close on line 95; the success path runs that
close exactly once before returning. -/
def captureTryBody (f : StepFaults) : Except (List Char) Unit × ℕ :=
  if f.launch then (Except.error "launch failed".toList, 0)
  else if f.createDir then (Except.error "createCaptureDirectory failed".toList, 0)
  else if f.navigate then (Except.error "navigation failed".toList, 0)
  else if f.sampling then (Except.error "screenshot failed".toList, 0)
  else if f.saveManifest then (Except.error "saveManifest failed".toList, 0)
  else (Except.ok (), 1)

/-- Embeds `captureSequence`: try body, then the catch block closes once more and
rethrows if the body faulted. -/
def captureSequence (f : StepFaults) : Except (List Char) Unit × ℕ :=
  match captureTryBody f with
  | (Except.ok r, closes) => (Except.ok r, closes)
  | (Except.error e, closes) => (Except.error e, closes + 1)

/-- Claim C2: on every exit path of `captureSequence` — the success path and
every faulting step — `browser.close()` is invoked exactly once, and the
sequence succeeds exactly when no step faulted (faults are re-raised). -/
theorem capture_close_exactly_once (f : StepFaults) :
    (captureSequence f).2 = 1 ∧
    ((captureSequence f).1.isOk = true ↔
      f = ⟨false, false, false, false, false⟩) := by
  rcases f with ⟨l, c, n, s, m⟩
  cases l <;> cases c <;> cases n <;> cases s <;> cases m <;>
    exact ⟨rfl, by decide⟩

/-! ### Screenshot fidelity (`browser.ts` screenshot, claim C8)

`BrowserController.screenshot(path, fullPage = false)` forwards
`{ path, fullPage }` to `page.screenshot`.  The program's configuration type
`CaptureConfig` (the types module staged inside `src/src/core/storage.ts`)
has no full-page field, the CLI registers no `--full-page` option, and
`takeScreenshot` (capturer.ts line 112) and `captureErrorScreenshot`
(line 329) call `this.browser.screenshot(screenshotPath)` with the
`fullPage` argument omitted — so every sample of every session is requested
viewport-only.  The repository's own tests (`tests/full-page.test.ts` and
the full-page CLI feature tests) expect a `--full-page` option and expect
`screenshot` to be called with `(path, true)` when full-page capture is
configured. -/

/-- The program's `CaptureConfig` interface, field for field (strings as
`List Char`, numbers as `ℕ`, optional fields as `Option`, the viewport as a
width/height pair).  It has no full-page field. -/
structure CaptureConfig where
  url : List Char
  name : Option (List Char)
  duration : Option ℕ
  interval : Option ℕ
  outputDir : Option (List Char)
  viewport : Option (ℕ × ℕ)
  waitFor : Option (List Char)
  keyFramesOnly : Option Bool
  device : Option (List Char)
  throttling : Option (List Char)
  deriving DecidableEq, Repr

/-- Embeds `BrowserController.screenshot`: the `(path, fullPage)` request
forwarded to the browser, with the TS default parameter `fullPage = false`. -/
def browserScreenshot (path : List Char) (fullPage : Bool := false) :
    List Char × Bool :=
  (path, fullPage)

/-- The browser request issued by `ScreenshotCapturer.takeScreenshot`
(line 112): the `fullPage` argument is omitted at the call site. -/
def takeScreenshotRequest (_config : CaptureConfig) (path : List Char) :
    List Char × Bool :=
  browserScreenshot path

/-- The browser request issued by `captureErrorScreenshot` (line 329):
likewise omits `fullPage`. -/
def captureErrorScreenshotRequest (_config : CaptureConfig) (path : List Char) :
    List Char × Bool :=
  browserScreenshot path

/-- Claim C8 fails on the code: the pipeline offers no full-page fidelity at
all.  `CaptureConfig` has no full-page field and both capturer call sites
omit the `fullPage` argument, so the browser request carries `fullPage =
false` for every session configuration and every sample — the request does
not depend on the configuration, and the `(path, true)` call that the
repository's full-page tests expect is never issued. -/
theorem capture_full_page_flag_dropped :
    (∀ (config : CaptureConfig) (path : List Char),
      (takeScreenshotRequest config path).2 = false ∧
      (captureErrorScreenshotRequest config path).2 = false) ∧
    (∀ (config config' : CaptureConfig) (path : List Char),
      takeScreenshotRequest config path = takeScreenshotRequest config' path) ∧
    (∀ (config : CaptureConfig) (path : List Char),
      takeScreenshotRequest config path ≠ (path, true)) := by
  refine ⟨fun _ _ => ⟨rfl, rfl⟩, fun _ _ _ => rfl, ?_⟩
  intro config path h
  have hsnd := congrArg Prod.snd h
  simp [takeScreenshotRequest, browserScreenshot] at hsnd

end ScreenshotTester
